import Mathlib

/-!
Verification of the evremap specification against its source.

Shallow embedding of the three source files (`deviceinfo.rs`, `mapping.rs`,
`main.rs`) plus a model of the event-processing engine described in §4 of the
specification (the engine's source, `remapper.rs`, is not part of the sources
given here, so it is modelled from the spec).

Key codes are the Linux evdev `KEY_*` numeric codes, embedded as `Nat`.
Strings are Lean `String`s; Rust's byte-wise string ordering is embedded as
the lexicographic order on the character lists of the strings.
-/

namespace Evremap

instance {ε α : Type} [DecidableEq ε] [DecidableEq α] : DecidableEq (Except ε α) := fun x y =>
  match x, y with
  | .ok a, .ok b => if h : a = b then .isTrue (by rw [h]) else .isFalse (by simp [h])
  | .error a, .error b => if h : a = b then .isTrue (by rw [h]) else .isFalse (by simp [h])
  | .ok _, .error _ => .isFalse (by simp)
  | .error _, .ok _ => .isFalse (by simp)

/-- Extract the ascending list of elements of a multiset of naturals.  This
plays the role of `Multiset.sort`, but is implemented with the structurally
recursive insertion sort so that it evaluates by kernel reduction. -/
def msort (s : Multiset Nat) : List Nat :=
  Quot.liftOn s (fun l => l.insertionSort (· ≤ ·)) fun _ _ h =>
    List.eq_of_perm_of_sorted
      ((List.perm_insertionSort _ _).trans (h.trans (List.perm_insertionSort _ _).symm))
      (List.sorted_insertionSort _ _) (List.sorted_insertionSort _ _)

/-! ### Model of the external evdev-rs key-name table

Modelled from the spec: the external `evdev-rs` library supplies the table of
Linux `KEY_*` tokens ("All key names use the Linux `KEY_*` token namespace").
We use a representative finite fragment of the real Linux table, with the real
codes; each name and each code occurs once. -/

/-- Modelled from the spec: a fragment of the Linux `KEY_*` name/code table
provided by the external `evdev-rs` crate. -/
def evdevKeyTable : List (String × Nat) :=
  [("KEY_RESERVED", 0),
   ("KEY_ESC", 1),
   ("KEY_1", 2),
   ("KEY_E", 18),
   ("KEY_LEFTCTRL", 29),
   ("KEY_A", 30),
   ("KEY_D", 32),
   ("KEY_C", 46),
   ("KEY_B", 48),
   ("KEY_LEFTALT", 56),
   ("KEY_CAPSLOCK", 58),
   ("KEY_F4", 62),
   ("KEY_VOLUMEUP", 115)]

/-- Modelled from the spec: the `EventType` enumeration of evdev (fragment). -/
inductive EvdevEventType where
  | evSyn
  | evKey
  | evRel
deriving DecidableEq

/-- Modelled from the spec: the `EventCode` enumeration of evdev (fragment):
an event code is tagged with the event type it belongs to. -/
inductive EvdevEventCode where
  | evSyn (code : Nat)
  | evKey (code : Nat)
  | evRel (code : Nat)
deriving DecidableEq

/-- Modelled from the spec: `EventCode::from_str(&EventType, &str)` of
`evdev-rs`, which resolves a `KEY_*` token to its `EV_KEY` event code. -/
def eventCodeFromStr (t : EvdevEventType) (s : String) : Option EvdevEventCode :=
  match t with
  | .evKey => (evdevKeyTable.find? (fun p => p.1 == s)).map (fun p => .evKey p.2)
  | _ => none

/-- Modelled from the spec: the `Display` rendering of an `EV_KEY` event code
(`format!("{}", code)` in `list_keys`), which prints the `KEY_*` token. -/
def eventCodeDisplay : EvdevEventCode → Option String
  | .evKey c => (evdevKeyTable.find? (fun p => p.2 == c)).map (fun p => p.1)
  | _ => none

/-! ### mapping.rs: error type and key-token parsing -/

/-- Errors produced while loading a configuration file.  `ConfigError` from
`mapping.rs` contributes `invalidKey` and `impossibleParseKey`; a missing
required TOML field surfaces as a serde/TOML error, embedded as
`missingDeviceName`. -/
inductive LoadError where
  | missingDeviceName
  | invalidKey (s : String)
  | impossibleParseKey
deriving DecidableEq

/-- Embedding of `TryFrom<String> for KeyCodeWrapper` (mapping.rs:70-81):
resolve the token via `EventCode::from_str(EV_KEY, s)`; an `EV_KEY` result is
`Ok`, a non-`EV_KEY` result is the impossible-parse error, and `None` is
`InvalidKey`. -/
def keyCodeWrapperTryFrom (s : String) : Except LoadError Nat :=
  match eventCodeFromStr .evKey s with
  | some code =>
    match code with
    | .evKey c => .ok c
    | _ => .error .impossibleParseKey
  | none => .error (.invalidKey s)

/-! ### mapping.rs: configuration file structures -/

/-- Raw (string-level) form of a `[[dual_role]]` entry as written in TOML. -/
structure RawDualRole where
  input : String
  hold : List String
  tap : List String
deriving DecidableEq

/-- Raw (string-level) form of a `[[remap]]` entry as written in TOML. -/
structure RawRemap where
  input : List String
  output : List String
deriving DecidableEq

/-- Modelled from the spec: the top-level TOML document as serde sees it.
Each top-level field of `ConfigFile` is present or absent; `Option.none`
records absence.  This models the external TOML/serde layer that `from_file`
relies on. -/
structure TomlDoc where
  device_name : Option String
  phys : Option String
  dual_role : Option (List RawDualRole)
  remap : Option (List RawRemap)
deriving DecidableEq

/-- Embedding of `DualRoleConfig` (mapping.rs:83-88) after key-token
conversion. -/
structure DualRoleConfig where
  input : Nat
  hold : List Nat
  tap : List Nat
deriving DecidableEq

/-- Embedding of `RemapConfig` (mapping.rs:100-104) after key-token
conversion. -/
structure RemapConfig where
  input : List Nat
  output : List Nat
deriving DecidableEq

/-- Embedding of `ConfigFile` (mapping.rs:115-126). -/
structure ConfigFile where
  device_name : String
  phys : Option String
  dual_role : List DualRoleConfig
  remap : List RemapConfig
deriving DecidableEq

/-- Convert every token of a list, failing on the first invalid one (serde
deserializes each `KeyCodeWrapper` in order). -/
def convertKeys (ss : List String) : Except LoadError (List Nat) :=
  ss.mapM keyCodeWrapperTryFrom

/-- Deserialize one raw `[[dual_role]]` entry. -/
def dualRoleFromRaw (r : RawDualRole) : Except LoadError DualRoleConfig := do
  let i ← keyCodeWrapperTryFrom r.input
  let h ← convertKeys r.hold
  let t ← convertKeys r.tap
  return ⟨i, h, t⟩

/-- Deserialize one raw `[[remap]]` entry. -/
def remapFromRaw (r : RawRemap) : Except LoadError RemapConfig := do
  let i ← convertKeys r.input
  let o ← convertKeys r.output
  return ⟨i, o⟩

/-- Modelled from the spec: serde deserialization of `ConfigFile` from the
TOML document.  `device_name` has no `#[serde(default)]` and is required;
`phys`, `dual_role` and `remap` carry `#[serde(default)]` and default to
`None` / empty arrays when absent. -/
def parseConfigFile (t : TomlDoc) : Except LoadError ConfigFile :=
  match t.device_name with
  | none => .error .missingDeviceName
  | some name => do
    let duals ← (t.dual_role.getD []).mapM dualRoleFromRaw
    let remaps ← (t.remap.getD []).mapM remapFromRaw
    return ⟨name, t.phys, duals, remaps⟩

/-! ### mapping.rs: Mapping and MappingConfig -/

/-- Embedding of `enum Mapping` (mapping.rs:37-48).  The `HashSet<KeyCode>`
fields of `Remap` are embedded as `Finset Nat`. -/
inductive Mapping where
  | dualRole (input : Nat) (hold : List Nat) (tap : List Nat)
  | remap (input : Finset Nat) (output : Finset Nat)
deriving DecidableEq

/-- Embedding of `From<DualRoleConfig> for Mapping` (mapping.rs:90-98). -/
def dualRoleToMapping (d : DualRoleConfig) : Mapping :=
  .dualRole d.input d.hold d.tap

/-- Embedding of `From<RemapConfig> for Mapping` (mapping.rs:106-113): the
input and output `Vec`s are collected into `HashSet`s. -/
def remapToMapping (r : RemapConfig) : Mapping :=
  .remap r.input.toFinset r.output.toFinset

/-- Embedding of `MappingConfig` (mapping.rs:8-13). -/
structure MappingConfig where
  device_name : String
  phys : Option String
  mappings : List Mapping
deriving DecidableEq

/-- Embedding of the body of `MappingConfig::from_file` after the TOML parse
(mapping.rs:22-33): push every dual-role mapping, then push every remap
mapping, in order of appearance. -/
def mappingConfigOfConfigFile (cf : ConfigFile) : MappingConfig :=
  let m1 := cf.dual_role.foldl (fun acc d => acc ++ [dualRoleToMapping d]) []
  let m2 := cf.remap.foldl (fun acc r => acc ++ [remapToMapping r]) m1
  ⟨cf.device_name, cf.phys, m2⟩

/-- Embedding of `MappingConfig::from_file` (mapping.rs:16-34), from the
parsed TOML document onward (reading the file and lexing the TOML text are
external). -/
def fromFile (t : TomlDoc) : Except LoadError MappingConfig :=
  (parseConfigFile t).map mappingConfigOfConfigFile

/-! ### main.rs: list_keys -/

/-- Lexicographic comparison on character lists by code point; this embeds
Rust's byte-wise `String` ordering used by `keys.sort()` (the two agree on
Unicode scalar values, and our table is ASCII). -/
def charListLe : List Char → List Char → Bool
  | [], _ => true
  | _ :: _, [] => false
  | a :: as, b :: bs =>
    if a.toNat < b.toNat then true
    else if b.toNat < a.toNat then false
    else charListLe as bs

/-- Byte-wise string comparison, as used by Rust's `Vec<String>::sort`. -/
def strLe (a b : String) : Bool :=
  charListLe a.data b.data

/-- Canonical (sorted) view of a list of key tokens; two token lists denote
the same key set exactly when they are duplicate-free and have the same
sorted view. -/
def sortTokens (l : List String) : List String :=
  l.insertionSort fun a b => strLe a b = true

/-- Embedding of the iterator `EventCode::EV_KEY(KEY_RESERVED).iter()`
(main.rs:39-40), which enumerates the `EV_KEY` event codes.  Modelled from the
spec via the key table fragment. -/
def evKeyCodeIter : List EvdevEventCode :=
  evdevKeyTable.map (fun p => .evKey p.2)

/-- Embedding of `list_keys` (main.rs:38-51): enumerate the `EV_KEY` codes,
keep the `EV_KEY` ones and format them, sort, and print one per line.  The
value is the list of printed lines. -/
def listKeysOutput : List String :=
  (evKeyCodeIter.filterMap (fun code =>
    match code with
    | .evKey _ => eventCodeDisplay code
    | _ => none)).mergeSort strLe

/-! ### deviceinfo.rs -/

/-- Embedding of `DeviceInfo` (deviceinfo.rs:6-11).  `PathBuf` is embedded as
`String` (device paths under `/dev/input` are valid UTF-8; the `to_str () =
None` fallback of `event_number_from_path` cannot arise for a Lean
`String`). -/
structure DeviceInfo where
  name : String
  path : String
  phys : String
deriving DecidableEq, Inhabited

/-- Index (into `s`) of the last occurrence of `sub` in `s`, as a character
position; embeds Rust's `str::rfind` for ASCII needles. -/
def rfindSub (s sub : List Char) : Option Nat :=
  ((List.range (s.length + 1)).filter (fun i => sub.isPrefixOf (s.drop i))).getLast?

/-- Embedding of Rust's `u32::from_str`: an optional leading `+`, then one or
more ASCII digits, with the value required to fit in 32 bits. -/
def parseU32 (cs : List Char) : Option Nat :=
  let ds := match cs with
    | '+' :: rest => rest
    | _ => cs
  if ds.isEmpty then none
  else if !ds.all Char.isDigit then none
  else
    let v := ds.foldl (fun a c => a * 10 + (c.toNat - 48)) 0
    if v < 2 ^ 32 then some v else none

/-- Embedding of `event_number_from_path` (deviceinfo.rs:102-110): find the
last occurrence of `"event"` in the path, parse the suffix after it as `u32`,
and fall back to `0` at every failure. -/
def eventNumberFromPath (path : String) : Nat :=
  match rfindSub path.data "event".data with
  | some idx => (parseU32 (path.data.drop (idx + 5))).getD 0
  | none => 0

/-- Comparator of the `devices.sort_by` call (deviceinfo.rs:92-97), as a
`Bool`-valued "less or equal": order by name, and between equal names by the
event device unit number. -/
def deviceLe (a b : DeviceInfo) : Bool :=
  decide (a.name < b.name) ||
    (a.name == b.name && decide (eventNumberFromPath a.path ≤ eventNumberFromPath b.path))

/-- Embedding of the sorting step of `DeviceInfo::obtain_device_list`
(deviceinfo.rs:66-99).  Enumerating `/dev/input` is external I/O, so the list
of successfully opened devices (in directory order) is a parameter; Rust's
`sort_by` is a stable merge sort, embedded as `List.mergeSort`. -/
def obtainDeviceList (found : List DeviceInfo) : List DeviceInfo :=
  found.mergeSort deviceLe

/-- Embedding of `Iterator::position`: index of the first element satisfying
the predicate. -/
def position {α : Type} (p : α → Bool) : List α → Option Nat
  | [] => none
  | x :: xs => if p x then some 0 else (position p xs).map (· + 1)

/-- Embedding of `DeviceInfo::with_name` (deviceinfo.rs:24-64), parameterized
by the enumerated device list.  With `phys` given: `position` of the first
device with that phys value, which is removed and returned alone; otherwise
filter by name and fail when nothing matches. -/
def withName (devices : List DeviceInfo) (name : String) (phys : Option String) :
    Except String (List DeviceInfo) :=
  match phys with
  | some p =>
    match position (fun item => item.phys == p) devices with
    | some idx => .ok [devices.getD idx default]
    | none =>
      .error ("Requested device `" ++ name ++ "` with phys=`" ++ p ++ "` was not found")
  | none =>
    let devicesWithName := devices.filter (fun item => item.name == name)
    if devicesWithName.isEmpty then
      .error ("No device found with name `" ++ name ++ "`")
    else
      .ok devicesWithName

/-! ### main.rs: the remap subcommand -/

/-- Observable actions of the startup sequence of the `remap` subcommand
(main.rs:70-90), in program order. -/
inductive StartupAction where
  | loadConfig
  | logReleaseWarning
  | sleepSecs (n : Nat)
  | enumerateDevices
  | spawnMapper (d : DeviceInfo)
deriving DecidableEq

/-- Trace of the `remap` subcommand's startup (main.rs:70-90): load the
configuration (stopping on failure), log the delay warning, sleep two
seconds, then enumerate devices via `with_name` and spawn one mapper thread
per matching device. -/
def remapStartupTrace (cfg : Except LoadError MappingConfig)
    (devices : Except String (List DeviceInfo)) : List StartupAction :=
  .loadConfig ::
    match cfg with
    | .error _ => []
    | .ok _ =>
      .logReleaseWarning :: .sleepSecs 2 :: .enumerateDevices ::
        match devices with
        | .error _ => []
        | .ok ds => ds.map .spawnMapper

/-- Modelled from the spec: `std::thread::scope` joins every spawned thread
before returning, so each device thread runs to completion and produces its
own result; the results are the values of the spawned closures.  `main`
(main.rs:78-90) drops these results. -/
def runScopeThreads (devs : List DeviceInfo)
    (threadResult : DeviceInfo → Except String Unit) : List (Except String Unit) :=
  devs.map threadResult

/-- Embedding of the `remap` arm of `main` (main.rs:70-93): the process exit
code (anyhow turns an `Err` from `main` into exit code 1) together with the
joined per-thread results.  The spawned threads' results are discarded by the
code: only a configuration-load failure or a `with_name` failure makes `main`
return `Err`. -/
def remapCommand (cfg : Except LoadError MappingConfig)
    (withNameResult : Except String (List DeviceInfo))
    (threadResult : DeviceInfo → Except String Unit) :
    Nat × List (Except String Unit) :=
  match cfg with
  | .error _ => (1, [])
  | .ok _ =>
    match withNameResult with
    | .error _ => (1, [])
    | .ok devs => (0, runScopeThreads devs threadResult)

/-! ### The event-processing engine (spec §4)

Modelled from the spec: the engine source (`remapper.rs`) is not among the
given sources, so the state machine of §4.2 is embedded from the
specification text.  A stimulus is an input key event or the hold-timer
expiry; one stimulus drives one transition, which emits a batch of output
events closed by a `SYN_REPORT`. -/

/-- Stimulus driving one engine transition (spec §4.2): an input press,
release or repeat of a key, or the expiry of the dual-role hold timer. -/
inductive Stimulus where
  | press (k : Nat)
  | release (k : Nat)
  | rep (k : Nat)
  | timer
deriving DecidableEq

/-- Output events emitted to the sink: key press/release/repeat and the
`SYN_REPORT` frame delimiter. -/
inductive OutEvent where
  | press (k : Nat)
  | release (k : Nat)
  | rep (k : Nat)
  | syn
deriving DecidableEq

/-- Modelled from the spec (§3, EngineState): currently pressed physical
keys, currently emitted output keys, the at-most-one pending dual-role key,
the dual-role keys resolved as "hold" that are still physically down, and the
chord-input keys consumed by a chord activation, which stay suppressed until
physically released (spec §4.2.7 and §8 scenario 4: a chord input released
from the output by the chord's activation is not re-emitted when the chord
deactivates).  `active_remaps` is recomputed from `physical_down` at each
step, so it is not stored. -/
structure EngineState where
  phys : Finset Nat
  emitted : Finset Nat
  pending : Option Nat
  held : Finset Nat
  swallowed : Finset Nat
deriving DecidableEq

/-- Initial engine state: nothing pressed, nothing emitted, nothing pending. -/
def initialEngineState : EngineState :=
  ⟨∅, ∅, none, ∅, ∅⟩

/-- Does some dual-role rule claim `k` as its input key (spec §4.1,
`dual_role_for`)? -/
def isDualInput (ms : List Mapping) (k : Nat) : Bool :=
  ms.any fun m =>
    match m with
    | .dualRole i _ _ => i == k
    | .remap _ _ => false

/-- Tap expansion of the first dual-role rule whose input is `k` (spec §4.1:
at most one such rule in a well-formed configuration). -/
def tapOf : List Mapping → Nat → List Nat
  | [], _ => []
  | .dualRole i _ t :: rest, k => if i == k then t else tapOf rest k
  | .remap _ _ :: rest, k => tapOf rest k

/-- Does `k` participate in any mapping (spec §4.2.3: dual-role input, chord
input, or chord output)? -/
def participates (ms : List Mapping) (k : Nat) : Bool :=
  ms.any fun m =>
    match m with
    | .dualRole i _ _ => i == k
    | .remap inp out => decide (k ∈ inp) || decide (k ∈ out)

/-- Keys contributed by dual-role rules resolved as hold (spec §4.2.5): the
union of the `hold` lists of rules whose input is currently held-resolved. -/
def holdContrib (ms : List Mapping) (held : Finset Nat) : Finset Nat :=
  ms.foldr
    (fun m acc =>
      match m with
      | .dualRole i h _ => if i ∈ held then h.toFinset ∪ acc else acc
      | .remap _ _ => acc)
    ∅

/-- Keys contributed by the currently satisfied chord-remap rules (spec
§4.1: a rule is active when `rule.input ⊆ physical_down`). -/
def chordContrib (ms : List Mapping) (phys : Finset Nat) : Finset Nat :=
  ms.foldr
    (fun m acc =>
      match m with
      | .dualRole _ _ _ => acc
      | .remap inp out => if inp ⊆ phys then out ∪ acc else acc)
    ∅

/-- Is `k` a member of the input set of some currently active chord-remap
rule (spec §4.2.7: such input keys are suppressed in the output)? -/
def chordSuppressed (ms : List Mapping) (phys : Finset Nat) (k : Nat) : Bool :=
  ms.any fun m =>
    match m with
    | .dualRole _ _ _ => false
    | .remap inp _ => decide (inp ⊆ phys) && decide (k ∈ inp)

/-- Update of the suppressed chord-input set after the physical set becomes
`phys`: keep the previously swallowed keys still physically down, and add the
inputs of every currently active chord rule (spec §4.2.7). -/
def newSwallowed (ms : List Mapping) (phys swallowed : Finset Nat) : Finset Nat :=
  swallowed ∩ phys ∪ phys.filter (fun k => chordSuppressed ms phys k)

/-- Modelled from the spec (§4.2): the set of output keys that must be down
given the physical key state, the held dual-role keys and the suppressed
chord inputs — the hold expansions of held dual-role rules, the outputs of
active chord rules, and the pass-through keys (physically down keys that are
neither dual-role inputs nor suppressed chord inputs). -/
def desired (ms : List Mapping) (phys held swallowed : Finset Nat) : Finset Nat :=
  holdContrib ms held ∪ chordContrib ms phys ∪
    phys.filter (fun k => ¬isDualInput ms k ∧ k ∉ swallowed)

/-- Releases for output keys no longer required followed by presses for newly
required output keys (spec §4.2.1 step 4 and §4.2.2 steps 3-4). -/
def diffEvents (old new : Finset Nat) : List OutEvent :=
  (msort (old \ new).val).map .release ++ (msort (new \ old).val).map .press

/-- Tap expansion (spec §4.2.5 and §4.2.6): each tap key is a complete
press/`SYN`/release/`SYN` cycle, in list order. -/
def tapEvents : List Nat → List OutEvent
  | [] => []
  | t :: rest => .press t :: .syn :: .release t :: .syn :: tapEvents rest

/-- Close a nonempty batch with a single `SYN_REPORT` (spec §4.2.6); an empty
batch emits nothing (spec §8, idempotent sync). -/
def closeBatch (evs : List OutEvent) : List OutEvent :=
  if evs.isEmpty then [] else evs ++ [.syn]

/-- Modelled from the spec (§4.2): one engine transition.  On a press the
pending dual-role key (if any) resolves as hold, and the pressed key either
becomes pending (if dual-role) or joins the physical set; a released key
leaves the physical and held sets, and a release of the pending key
additionally resolves that rule as tap; repeats are forwarded only for keys
that participate in no mapping; the timer resolves the pending key as hold.
After the state change the engine emits the difference between the
previously emitted keys and the newly desired ones. -/
def stepEngine (ms : List Mapping) (st : EngineState) :
    Stimulus → EngineState × List OutEvent
  | .press k =>
    let phys := insert k st.phys
    let held :=
      match st.pending with
      | some p => insert p st.held
      | none => st.held
    let pending := if isDualInput ms k then some k else none
    let swallowed := newSwallowed ms phys st.swallowed
    let des := desired ms phys held swallowed
    (⟨phys, des, pending, held, swallowed⟩, closeBatch (diffEvents st.emitted des))
  | .release k =>
    let phys := st.phys.erase k
    let held := st.held.erase k
    let swallowed := newSwallowed ms phys st.swallowed
    if st.pending = some k then
      let des := desired ms phys held swallowed
      (⟨phys, des, none, held, swallowed⟩,
        tapEvents (tapOf ms k) ++ closeBatch (diffEvents st.emitted des))
    else
      let des := desired ms phys held swallowed
      (⟨phys, des, st.pending, held, swallowed⟩, closeBatch (diffEvents st.emitted des))
  | .rep k =>
    (st, if participates ms k then [] else closeBatch [.rep k])
  | .timer =>
    match st.pending with
    | some p =>
      let held := insert p st.held
      let des := desired ms st.phys held st.swallowed
      (⟨st.phys, des, none, held, st.swallowed⟩, closeBatch (diffEvents st.emitted des))
    | none => (st, [])

/-- Run the engine over a finite stimulus sequence, collecting the final
state and the concatenated output stream. -/
def runEngine (ms : List Mapping) : EngineState → List Stimulus →
    EngineState × List OutEvent
  | st, [] => (st, [])
  | st, stim :: rest =>
    let so := stepEngine ms st stim
    let rest' := runEngine ms so.1 rest
    (rest'.1, so.2 ++ rest'.2)

/-- Multiset of currently open (pressed but not yet released) output keys
after processing an output stream, starting from `acc`. -/
def openKeys (acc : Multiset Nat) : List OutEvent → Multiset Nat
  | [] => acc
  | .press k :: rest => openKeys (k ::ₘ acc) rest
  | .release k :: rest => openKeys (acc.erase k) rest
  | .rep _ :: rest => openKeys acc rest
  | .syn :: rest => openKeys acc rest

/-- Every release in the stream closes a key that is open at that point
(starting from `acc`).  Together with `openKeys acc l = 0` this says the
stream's presses and releases match up perfectly. -/
def releasesOk (acc : Multiset Nat) : List OutEvent → Bool
  | [] => true
  | .press k :: rest => releasesOk (k ::ₘ acc) rest
  | .release k :: rest => decide (k ∈ acc) && releasesOk (acc.erase k) rest
  | .rep _ :: rest => releasesOk acc rest
  | .syn :: rest => releasesOk acc rest

/-- Well-formedness of a mapping list used by the balance argument: every
chord-remap rule has a nonempty input set (a chord is a set of held keys;
spec §3). -/
def Mapping.chordOk : Mapping → Prop
  | .remap inp _ => inp.Nonempty
  | .dualRole _ _ _ => True

instance (m : Mapping) : Decidable m.chordOk :=
  match m with
  | .remap inp _ => inferInstanceAs (Decidable inp.Nonempty)
  | .dualRole _ _ _ => inferInstanceAs (Decidable True)

def chordInputsNonempty (ms : List Mapping) : Prop :=
  ∀ m ∈ ms, m.chordOk

instance (ms : List Mapping) : Decidable (chordInputsNonempty ms) :=
  inferInstanceAs (Decidable (∀ m ∈ ms, m.chordOk))

/-! ### Auxiliary definitions used by the statements below -/

/-- All key tokens appearing in the TOML document, in deserialization order. -/
def allKeyTokens (t : TomlDoc) : List String :=
  (t.dual_role.getD []).flatMap (fun r => r.input :: (r.hold ++ r.tap)) ++
    (t.remap.getD []).flatMap (fun r => r.input ++ r.output)

/-- Startup actions that touch the input devices: enumerating them or
spawning a mapper (which grabs its device). -/
def isGrabAction : StartupAction → Bool
  | .enumerateDevices => true
  | .spawnMapper _ => true
  | _ => false

/-- Configuration document holding two dual-role rules with the same input
key (`KEY_CAPSLOCK`) and two chord-remap rules with identical input sets
(`{KEY_LEFTALT, KEY_F4}`, written in the two orders). -/
def dupInputDoc : TomlDoc :=
  ⟨some "My Keyboard", none,
   some [⟨"KEY_CAPSLOCK", ["KEY_LEFTCTRL"], ["KEY_ESC"]⟩,
         ⟨"KEY_CAPSLOCK", ["KEY_LEFTALT"], ["KEY_A"]⟩],
   some [⟨["KEY_LEFTALT", "KEY_F4"], ["KEY_VOLUMEUP"]⟩,
         ⟨["KEY_F4", "KEY_LEFTALT"], ["KEY_B"]⟩]⟩

/-- Enumerated device whose phys matches the request below but whose name
does not. -/
def otherNameDevice : DeviceInfo :=
  ⟨"Other Device", "/dev/input/event3", "usb-0000:00:14.0-1/input0"⟩

/-- Device used in the thread-failure scenario. -/
def failingDevice : DeviceInfo :=
  ⟨"My Keyboard", "/dev/input/event5", "usb-0000:00:14.0-2/input0"⟩

/-- Mapping list of the balance witness: the CAPSLOCK dual-role rule and the
LEFTALT+F4 chord of the spec's scenarios. -/
def witnessMappings : List Mapping :=
  [.dualRole 58 [29] [1], .remap {56, 62} {115}]

/-- Stimulus sequence of the balance witness: a tap, a hold resolved by a
second key, and a completed chord; every key is released at the end. -/
def witnessStimuli : List Stimulus :=
  [.press 58, .release 58,
   .press 58, .press 30, .release 30, .release 58,
   .press 56, .press 62, .release 62, .release 56]

/-! ## Helper lemmas -/

theorem tryFrom_eq_find (s : String) :
    keyCodeWrapperTryFrom s =
      match evdevKeyTable.find? (fun p => p.1 == s) with
      | some p => .ok p.2
      | none => .error (.invalidKey s) := by
  unfold keyCodeWrapperTryFrom eventCodeFromStr
  cases h : evdevKeyTable.find? (fun p => p.1 == s) <;> simp [h]

theorem tryFrom_isOk_iff (s : String) :
    (keyCodeWrapperTryFrom s).isOk = true ↔ s ∈ evdevKeyTable.map Prod.fst := by
  rw [tryFrom_eq_find]
  cases h : evdevKeyTable.find? (fun p => p.1 == s) with
  | none =>
    constructor
    · intro hc
      simp [Except.isOk, Except.toBool] at hc
    · intro hm
      obtain ⟨x, hx, hxs⟩ := List.mem_map.mp hm
      have hnone := List.find?_eq_none.mp h x hx
      simp [hxs] at hnone
  | some p =>
    constructor
    · intro _
      have hp := List.find?_some h
      exact List.mem_map.mpr ⟨p, List.mem_of_find?_eq_some h, by simpa using hp⟩
    · intro _
      rfl

theorem mem_listKeysOutput_iff (s : String) :
    s ∈ listKeysOutput ↔ s ∈ evdevKeyTable.map Prod.fst := by
  have hfind : ∀ p ∈ evdevKeyTable, evdevKeyTable.find? (fun q => q.2 == p.2) = some p := by
    decide
  unfold listKeysOutput evKeyCodeIter
  rw [List.mem_mergeSort, List.mem_filterMap]
  constructor
  · rintro ⟨code, hcode, hdisp⟩
    obtain ⟨p, hp, rfl⟩ := List.mem_map.mp hcode
    simp only [eventCodeDisplay] at hdisp
    obtain ⟨q, hq, rfl⟩ := Option.map_eq_some'.mp hdisp
    exact List.mem_map.mpr ⟨q, List.mem_of_find?_eq_some hq, rfl⟩
  · intro hm
    obtain ⟨p, hp, rfl⟩ := List.mem_map.mp hm
    refine ⟨.evKey p.2, List.mem_map.mpr ⟨p, hp, rfl⟩, ?_⟩
    simp [eventCodeDisplay, hfind p hp]

theorem charListLe_total : ∀ l1 l2 : List Char, (charListLe l1 l2 || charListLe l2 l1) = true
  | [], l2 => by simp [charListLe]
  | _ :: _, [] => by simp [charListLe]
  | a :: as, b :: bs => by
    by_cases h1 : a.toNat < b.toNat
    · simp [charListLe, h1]
    · by_cases h2 : b.toNat < a.toNat
      · simp [charListLe, h1, h2]
      · simpa [charListLe, h1, h2] using charListLe_total as bs

theorem charListLe_trans :
    ∀ l1 l2 l3 : List Char,
      charListLe l1 l2 = true → charListLe l2 l3 = true → charListLe l1 l3 = true
  | [], l2, l3 => fun _ _ => by simp [charListLe]
  | _ :: _, [], _ => fun h _ => by simp [charListLe] at h
  | _ :: _, _ :: _, [] => fun _ h => by simp [charListLe] at h
  | a :: as, b :: bs, c :: cs => fun h12 h23 => by
    by_cases hab : a.toNat < b.toNat
    · by_cases hbc : b.toNat < c.toNat
      · have hac : a.toNat < c.toNat := by omega
        simp [charListLe, hac]
      · by_cases hcb : c.toNat < b.toNat
        · simp [charListLe, hbc, hcb] at h23
        · have hac : a.toNat < c.toNat := by omega
          simp [charListLe, hac]
    · by_cases hba : b.toNat < a.toNat
      · simp [charListLe, hab, hba] at h12
      · by_cases hbc : b.toNat < c.toNat
        · have hac : a.toNat < c.toNat := by omega
          simp [charListLe, hac]
        · by_cases hcb : c.toNat < b.toNat
          · simp [charListLe, hbc, hcb] at h23
          · have hac : ¬a.toNat < c.toNat := by omega
            have hca : ¬c.toNat < a.toNat := by omega
            have h12' : charListLe as bs = true := by
              simpa [charListLe, hab, hba] using h12
            have h23' : charListLe bs cs = true := by
              simpa [charListLe, hbc, hcb] using h23
            simpa [charListLe, hac, hca] using charListLe_trans as bs cs h12' h23'

theorem strLe_total (a b : String) : (strLe a b || strLe b a) = true :=
  charListLe_total a.data b.data

theorem strLe_trans (a b c : String) :
    strLe a b = true → strLe b c = true → strLe a c = true :=
  charListLe_trans a.data b.data c.data

/-! ## C5 and C6: key-token parsing and list-keys -/

/-- C5: parsing a key token is a load-time error exactly when the string is
not a known `KEY_*` token: `TryFrom<String> for KeyCodeWrapper` returns `Ok`
with the corresponding `EV_KEY` code whenever the evdev table resolves the
string, and `InvalidKey` for every unknown string (the non-`EV_KEY` branch is
unreachable). -/
theorem keyToken_parse_spec :
    ∀ s : String,
      keyCodeWrapperTryFrom s =
        match evdevKeyTable.find? (fun p => p.1 == s) with
        | some p => .ok p.2
        | none => .error (.invalidKey s) :=
  tryFrom_eq_find

/-- C6: a string is accepted as a key token by configuration parsing exactly
when it is among the lines printed by `list-keys`, and `list_keys` prints
each token exactly once, in sorted order (byte-wise string order, as Rust's
`sort` uses). -/
theorem listKeys_roundtrip :
    (∀ s : String, ((keyCodeWrapperTryFrom s).isOk = true ↔ s ∈ listKeysOutput)) ∧
    listKeysOutput.Nodup ∧
    List.Pairwise (fun a b => strLe a b = true) listKeysOutput := by
  refine ⟨fun s => (tryFrom_isOk_iff s).trans (mem_listKeysOutput_iff s).symm, ?_, ?_⟩
  · unfold listKeysOutput
    rw [(List.mergeSort_perm _ strLe).nodup_iff]
    decide
  · exact List.sorted_mergeSort strLe_trans strLe_total _

/-! ## C7 and C9: required and optional fields; mapping order -/

/-- C7: `device_name` is required — a document lacking it fails to load,
whatever else it contains — and `phys`, `dual_role` and `remap` are each
optional: omitting `dual_role` (or `remap`) loads exactly like supplying an
empty array, with the other fields arbitrary, an omitted `phys` is carried
through as `none`, and a document with all optional fields omitted parses
successfully with `phys = none` and no mappings. -/
theorem configFile_required_optional :
    ∀ (nm : String) (ph : Option String) (dr : Option (List RawDualRole))
      (rm : Option (List RawRemap)),
      fromFile ⟨none, ph, dr, rm⟩ = .error .missingDeviceName ∧
      fromFile ⟨some nm, ph, none, rm⟩ = fromFile ⟨some nm, ph, some [], rm⟩ ∧
      fromFile ⟨some nm, ph, dr, none⟩ = fromFile ⟨some nm, ph, dr, some []⟩ ∧
      fromFile ⟨some nm, ph, none, none⟩ = .ok ⟨nm, ph, []⟩ ∧
      fromFile ⟨some nm, none, none, none⟩ = .ok ⟨nm, none, []⟩ := by
  intro nm ph dr rm
  exact ⟨rfl, rfl, rfl, rfl, rfl⟩

theorem foldl_push_eq_append {α β : Type} (f : α → β) :
    ∀ (l : List α) (init : List β),
      l.foldl (fun acc x => acc ++ [f x]) init = init ++ l.map f := by
  intro l
  induction l with
  | nil => simp
  | cons x xs ih => intro init; simp [ih, List.map_cons]

/-- C9: the mappings vector contains all dual-role mappings first, in file
order, followed by all remap mappings in file order. -/
theorem mappings_order :
    ∀ cf : ConfigFile,
      (mappingConfigOfConfigFile cf).mappings =
        cf.dual_role.map dualRoleToMapping ++ cf.remap.map remapToMapping := by
  intro cf
  simp [mappingConfigOfConfigFile, foldl_push_eq_append]

/-! ## C2: no duplicate detection in from_file -/

theorem except_bind_ok {ε α β : Type} (a : α) (f : α → Except ε β) :
    (Except.ok a : Except ε α) >>= f = f a :=
  rfl

theorem except_bind_error {ε α β : Type} (e : ε) (f : α → Except ε β) :
    (Except.error e : Except ε α) >>= f = .error e :=
  rfl

theorem except_isOk_map {ε α β : Type} (f : α → β) (x : Except ε α) :
    (x.map f).isOk = x.isOk := by
  cases x <;> rfl

theorem except_isOk_bind {ε α β : Type} (x : Except ε α) (f : α → Except ε β)
    (c : Bool) (hf : ∀ v, (f v).isOk = c) : (x >>= f).isOk = (x.isOk && c) := by
  cases x with
  | error e => rw [except_bind_error]; rfl
  | ok v => rw [except_bind_ok, hf v]; rfl

theorem mapM_except_isOk {ε α β : Type} (f : α → Except ε β) :
    ∀ l : List α, (l.mapM f).isOk = l.all fun x => (f x).isOk := by
  intro l
  induction l with
  | nil => rfl
  | cons x xs ih =>
    rw [List.mapM_cons, List.all_cons, ← ih]
    refine except_isOk_bind _ _ _ fun v => ?_
    rw [except_isOk_bind (xs.mapM f) (fun ys => pure (v :: ys)) true fun ys => rfl,
      Bool.and_true]

theorem convertKeys_isOk (l : List String) :
    (convertKeys l).isOk = l.all fun s => (keyCodeWrapperTryFrom s).isOk :=
  mapM_except_isOk _ l

theorem dualRoleFromRaw_isOk (r : RawDualRole) :
    (dualRoleFromRaw r).isOk =
      ((keyCodeWrapperTryFrom r.input).isOk &&
        ((convertKeys r.hold).isOk && (convertKeys r.tap).isOk)) := by
  unfold dualRoleFromRaw
  refine except_isOk_bind _ _ _ fun i => ?_
  refine except_isOk_bind _ _ _ fun h => ?_
  rw [except_isOk_bind (convertKeys r.tap)
      (fun t => (pure ⟨i, h, t⟩ : Except LoadError DualRoleConfig)) true fun t => rfl,
    Bool.and_true]

theorem remapFromRaw_isOk (r : RawRemap) :
    (remapFromRaw r).isOk =
      ((convertKeys r.input).isOk && (convertKeys r.output).isOk) := by
  unfold remapFromRaw
  refine except_isOk_bind _ _ _ fun i => ?_
  rw [except_isOk_bind (convertKeys r.output)
      (fun o => (pure ⟨i, o⟩ : Except LoadError RemapConfig)) true fun o => rfl,
    Bool.and_true]

theorem all_flatMap {α β : Type} (p : β → Bool) (f : α → List β) :
    ∀ l : List α, (l.flatMap f).all p = l.all fun x => (f x).all p := by
  intro l
  induction l with
  | nil => rfl
  | cons x xs ih => rw [List.flatMap_cons, List.all_append, ih, List.all_cons]

/-- C2 (amended): `from_file` performs no duplicate detection at all — it
succeeds exactly when `device_name` is present and every key token resolves,
regardless of duplicate dual-role inputs or identical chord input sets. -/
theorem fromFile_isOk_iff_tokens :
    ∀ t : TomlDoc,
      (fromFile t).isOk =
        (t.device_name.isSome &&
          (allKeyTokens t).all fun s => (keyCodeWrapperTryFrom s).isOk) := by
  intro t
  rw [fromFile, except_isOk_map]
  unfold parseConfigFile
  cases hdn : t.device_name with
  | none => rfl
  | some nm =>
    rw [except_isOk_bind _ _ (((t.remap.getD []).mapM remapFromRaw).isOk) fun duals => by
      rw [except_isOk_bind ((t.remap.getD []).mapM remapFromRaw)
          (fun remaps => (pure ⟨nm, t.phys, duals, remaps⟩ : Except LoadError ConfigFile))
          true fun remaps => rfl,
        Bool.and_true]]
    rw [mapM_except_isOk, mapM_except_isOk]
    rw [allKeyTokens, List.all_append, all_flatMap, all_flatMap]
    have h1 : (fun r : RawDualRole => (dualRoleFromRaw r).isOk) =
        fun r : RawDualRole =>
          (r.input :: (r.hold ++ r.tap)).all fun s => (keyCodeWrapperTryFrom s).isOk :=
      funext fun r => by
        rw [dualRoleFromRaw_isOk, convertKeys_isOk, convertKeys_isOk,
          List.all_cons, List.all_append]
    have h2 : (fun r : RawRemap => (remapFromRaw r).isOk) =
        fun r : RawRemap =>
          (r.input ++ r.output).all fun s => (keyCodeWrapperTryFrom s).isOk :=
      funext fun r => by
        rw [remapFromRaw_isOk, convertKeys_isOk, convertKeys_isOk, List.all_append]
    rw [h1, h2, Option.isSome_some, Bool.true_and]

/-- C2 (counterexample): a configuration with two dual-role rules claiming
the same input key and two chord rules with identical input sets (checked by
comparing their sorted token lists) loads successfully — `from_file` reports
no error for it. -/
theorem fromFile_accepts_duplicates :
    (dupInputDoc.dual_role.getD []).map RawDualRole.input =
      ["KEY_CAPSLOCK", "KEY_CAPSLOCK"] ∧
    (dupInputDoc.remap.getD []).map (fun r => sortTokens r.input) =
      [["KEY_F4", "KEY_LEFTALT"], ["KEY_F4", "KEY_LEFTALT"]] ∧
    (fromFile dupInputDoc).isOk = true := by
  exact ⟨rfl, by decide, by decide⟩

/-! ## C1: with_name -/

theorem position_getD_eq_find? {α : Type} [Inhabited α] (p : α → Bool) :
    ∀ l : List α,
      (match position p l with
       | some idx => some (l.getD idx default)
       | none => none) = l.find? p := by
  intro l
  induction l with
  | nil => rfl
  | cons x xs ih =>
    by_cases hx : p x
    · simp [position, hx, List.find?_cons_of_pos _ hx]
    · rw [List.find?_cons_of_neg _ (by simp [hx]), ← ih]
      cases hpos : position p xs <;> simp [position, hx, hpos]

/-- C1 (amended): with a `phys` string supplied, `with_name` returns the
first enumerated device whose phys equals it — the device's name is not
consulted — and errors only when no device has that phys; with no `phys`, it
returns every device whose name matches, and errors when that set is
empty. -/
theorem withName_spec :
    ∀ (devices : List DeviceInfo) (name p : String),
      withName devices name (some p) =
        (match devices.find? (fun d => d.phys == p) with
         | some d => .ok [d]
         | none =>
           .error ("Requested device `" ++ name ++ "` with phys=`" ++ p ++
             "` was not found")) ∧
      withName devices name none =
        (if devices.filter (fun d => d.name == name) = [] then
          .error ("No device found with name `" ++ name ++ "`")
         else .ok (devices.filter (fun d => d.name == name))) := by
  intro devices name p
  constructor
  · rw [← position_getD_eq_find? (fun d => d.phys == p) devices]
    unfold withName
    cases h : position (fun d => d.phys == p) devices <;> simp [h]
  · unfold withName
    by_cases h : devices.filter (fun d => d.name == name) = [] <;>
      simp [h, List.isEmpty_iff]

/-- C1 (counterexample): with `phys` supplied, `with_name` returns a device
whose name differs from the requested `device_name`, where the claim demands
an error because no device matches both name and phys. -/
theorem withName_phys_ignores_name :
    withName [otherNameDevice] "My Keyboard" (some "usb-0000:00:14.0-1/input0") =
      .ok [otherNameDevice] ∧
    otherNameDevice.name ≠ "My Keyboard" := by
  exact ⟨rfl, by decide⟩

/-! ## C3: thread failure and exit code -/

/-- C3 (amended): the exit code of the `remap` subcommand does not depend on
the per-thread results at all — it is `0` whenever configuration loading and
device matching succeed, even when device threads fail — and every device
thread runs to completion (`thread::scope` joins them all), so a failed
thread does not abort its siblings. -/
theorem remapCommand_spec :
    ∀ (cfg : MappingConfig) (devs : List DeviceInfo)
      (f g : DeviceInfo → Except String Unit)
      (c : Except LoadError MappingConfig) (d : Except String (List DeviceInfo)),
      (remapCommand (.ok cfg) (.ok devs) f).1 = 0 ∧
      (remapCommand (.ok cfg) (.ok devs) f).2 = devs.map f ∧
      (remapCommand c d f).1 = (remapCommand c d g).1 := by
  intro cfg devs f g c d
  refine ⟨rfl, rfl, ?_⟩
  cases c <;> cases d <;> rfl

/-- C3 (counterexample): a remapper thread terminates with an error, yet the
process exit code is `0`, not non-zero as the claim requires. -/
theorem remapCommand_ignores_thread_failure :
    remapCommand (.ok ⟨"My Keyboard", none, []⟩) (.ok [failingDevice])
        (fun _ => .error "failed to read event") =
      (0, [.error "failed to read event"]) :=
  rfl

/-! ## C8: the pre-grab sleep -/

/-- C8: when configuration loading succeeds the startup trace contains the
two-second sleep, and in every startup trace no device enumeration or mapper
spawn occurs before the sleep. -/
theorem remap_sleeps_before_grab :
    ∀ (cfg : MappingConfig) (devices : Except String (List DeviceInfo))
      (cfgRes : Except LoadError MappingConfig),
      .sleepSecs 2 ∈ remapStartupTrace (.ok cfg) devices ∧
      ((remapStartupTrace cfgRes devices).takeWhile fun a => a != .sleepSecs 2).all
        (fun a => !isGrabAction a) = true := by
  intro cfg devices cfgRes
  constructor
  · simp [remapStartupTrace]
  · cases cfgRes <;>
      simp [remapStartupTrace, List.takeWhile_cons, isGrabAction]

/-! ## C10: device-list ordering -/

theorem deviceLe_iff (a b : DeviceInfo) :
    deviceLe a b = true ↔
      a.name < b.name ∨
        (a.name = b.name ∧ eventNumberFromPath a.path ≤ eventNumberFromPath b.path) := by
  simp [deviceLe, decide_eq_true_eq]

theorem deviceLe_trans (a b c : DeviceInfo) :
    deviceLe a b = true → deviceLe b c = true → deviceLe a c = true := by
  rw [deviceLe_iff, deviceLe_iff, deviceLe_iff]
  rintro (h1 | ⟨h1, h1'⟩) (h2 | ⟨h2, h2'⟩)
  · exact Or.inl (lt_trans h1 h2)
  · exact Or.inl (h2 ▸ h1)
  · exact Or.inl (h1 ▸ h2)
  · exact Or.inr ⟨h1.trans h2, le_trans h1' h2'⟩

theorem deviceLe_total (a b : DeviceInfo) :
    (deviceLe a b || deviceLe b a) = true := by
  rw [Bool.or_eq_true, deviceLe_iff, deviceLe_iff]
  rcases lt_trichotomy a.name b.name with h | h | h
  · exact Or.inl (Or.inl h)
  · rcases le_total (eventNumberFromPath a.path) (eventNumberFromPath b.path) with h' | h'
    · exact Or.inl (Or.inr ⟨h, h'⟩)
    · exact Or.inr (Or.inr ⟨h.symm, h'⟩)
  · exact Or.inr (Or.inl h)

/-- C10: the device list produced by `obtain_device_list` is the found
devices reordered ascending by name, with ties between equal names broken by
the numeric suffix after `"event"` in the path (an unparseable suffix counts
as unit number `0`, which is what `eventNumberFromPath` returns for it). -/
theorem obtainDeviceList_sorted :
    ∀ found : List DeviceInfo,
      (obtainDeviceList found).Perm found ∧
      List.Pairwise
        (fun a b =>
          a.name < b.name ∨
            (a.name = b.name ∧ eventNumberFromPath a.path ≤ eventNumberFromPath b.path))
        (obtainDeviceList found) := by
  intro found
  refine ⟨List.mergeSort_perm found deviceLe, ?_⟩
  exact (List.sorted_mergeSort deviceLe_trans deviceLe_total found).imp
    fun h => (deviceLe_iff _ _).mp h

/-! ## C4: balance of the event engine -/

theorem msort_coe (s : Multiset Nat) : ((msort s : List Nat) : Multiset Nat) = s := by
  refine Quot.inductionOn s fun l => ?_
  exact Quot.sound (List.perm_insertionSort _ l)

theorem openKeys_append (l1 l2 : List OutEvent) :
    ∀ acc, openKeys acc (l1 ++ l2) = openKeys (openKeys acc l1) l2 := by
  induction l1 with
  | nil => intro acc; rfl
  | cons e rest ih => intro acc; cases e <;> simp [openKeys, ih]

theorem releasesOk_append (l1 l2 : List OutEvent) :
    ∀ acc,
      releasesOk acc (l1 ++ l2) =
        (releasesOk acc l1 && releasesOk (openKeys acc l1) l2) := by
  induction l1 with
  | nil => intro acc; simp [releasesOk, openKeys]
  | cons e rest ih =>
    intro acc
    cases e <;> simp [releasesOk, openKeys, ih, Bool.and_assoc]

theorem openKeys_tapEvents (ts : List Nat) : ∀ acc, openKeys acc (tapEvents ts) = acc := by
  induction ts with
  | nil => intro acc; rfl
  | cons t rest ih =>
    intro acc
    simp [tapEvents, openKeys, Multiset.erase_cons_head, ih]

theorem releasesOk_tapEvents (ts : List Nat) : ∀ acc, releasesOk acc (tapEvents ts) = true := by
  induction ts with
  | nil => intro acc; rfl
  | cons t rest ih =>
    intro acc
    simp [tapEvents, releasesOk, Multiset.mem_cons_self, Multiset.erase_cons_head, ih]

theorem openKeys_releaseList :
    ∀ (l : List Nat) (m : Multiset Nat), (l : Multiset Nat) ≤ m →
      openKeys m (l.map .release) = m - (l : Multiset Nat) ∧
      releasesOk m (l.map .release) = true := by
  intro l
  induction l with
  | nil =>
    intro m _
    constructor
    · show m = m - 0
      rw [Multiset.sub_zero]
    · rfl
  | cons x xs ih =>
    intro m h
    have hx : x ∈ m := Multiset.mem_of_le h (by simp)
    have hxs : ((xs : List Nat) : Multiset Nat) ≤ m.erase x := by
      have he := Multiset.erase_le_erase x h
      rwa [show (((x :: xs : List Nat) : Multiset Nat)).erase x = ((xs : List Nat) : Multiset Nat) by
        rw [← Multiset.cons_coe, Multiset.erase_cons_head]] at he
    obtain ⟨ho, hr⟩ := ih (m.erase x) hxs
    constructor
    · simp only [List.map_cons, openKeys]
      rw [ho, ← Multiset.cons_coe, Multiset.sub_cons]
    · simp only [List.map_cons, releasesOk]
      simp [hx, hr]

theorem openKeys_pressList :
    ∀ (l : List Nat) (m : Multiset Nat),
      openKeys m (l.map .press) = m + (l : Multiset Nat) ∧
      releasesOk m (l.map .press) = true := by
  intro l
  induction l with
  | nil =>
    intro m
    constructor
    · show m = m + 0
      rw [add_zero]
    · rfl
  | cons x xs ih =>
    intro m
    obtain ⟨ho, hr⟩ := ih (x ::ₘ m)
    constructor
    · simp only [List.map_cons, openKeys]
      rw [ho, ← Multiset.cons_coe, Multiset.cons_add, Multiset.add_cons]
    · simp only [List.map_cons, releasesOk]
      exact hr

theorem count_finset_val (s : Finset Nat) (a : Nat) :
    s.val.count a = if a ∈ s then 1 else 0 := by
  by_cases h : a ∈ s
  · simp [h, Multiset.count_eq_one_of_mem s.nodup h]
  · simp [h, Multiset.count_eq_zero_of_not_mem h]

theorem diff_val_eq (old new : Finset Nat) :
    old.val - (old \ new).val + (new \ old).val = new.val := by
  rw [Multiset.ext]
  intro a
  rw [Multiset.count_add, Multiset.count_sub, count_finset_val (old \ new) a,
    count_finset_val (new \ old) a, count_finset_val old a, count_finset_val new a]
  by_cases h1 : a ∈ old <;> by_cases h2 : a ∈ new <;>
    simp [Finset.mem_sdiff, h1, h2]

theorem diffEvents_spec (old new : Finset Nat) :
    openKeys old.val (diffEvents old new) = new.val ∧
    releasesOk old.val (diffEvents old new) = true := by
  obtain ⟨ho1, hr1⟩ := openKeys_releaseList (msort (old \ new).val) old.val
    (by rw [msort_coe]; exact Finset.val_le_iff.mpr Finset.sdiff_subset)
  obtain ⟨ho2, hr2⟩ :=
    openKeys_pressList (msort (new \ old).val)
      (old.val - ((msort (old \ new).val : List Nat) : Multiset Nat))
  constructor
  · rw [diffEvents, openKeys_append, ho1, ho2, msort_coe, msort_coe, diff_val_eq]
  · rw [diffEvents, releasesOk_append, hr1, ho1, hr2]
    rfl

theorem diff_batch_spec (old new : Finset Nat) :
    openKeys old.val (closeBatch (diffEvents old new)) = new.val ∧
    releasesOk old.val (closeBatch (diffEvents old new)) = true := by
  unfold closeBatch
  by_cases h : (diffEvents old new).isEmpty
  · rw [if_pos h]
    have := diffEvents_spec old new
    rw [List.isEmpty_iff.mp h] at this
    exact this
  · rw [if_neg h, openKeys_append, releasesOk_append, (diffEvents_spec old new).1,
      (diffEvents_spec old new).2]
    exact ⟨rfl, rfl⟩

theorem tap_batch_spec (ts : List Nat) (old new : Finset Nat) :
    openKeys old.val (tapEvents ts ++ closeBatch (diffEvents old new)) = new.val ∧
    releasesOk old.val (tapEvents ts ++ closeBatch (diffEvents old new)) = true := by
  rw [openKeys_append, releasesOk_append, openKeys_tapEvents, releasesOk_tapEvents]
  exact ⟨(diff_batch_spec old new).1, by rw [(diff_batch_spec old new).2]; rfl⟩

theorem holdContrib_empty (ms : List Mapping) : holdContrib ms ∅ = ∅ := by
  induction ms with
  | nil => rfl
  | cons m rest ih => cases m <;> simp [holdContrib, ih] <;> simp [holdContrib] at ih <;>
      exact ih

theorem chordContrib_empty :
    ∀ ms : List Mapping, chordInputsNonempty ms → chordContrib ms ∅ = ∅ := by
  intro ms
  induction ms with
  | nil => intro _; rfl
  | cons m rest ih =>
    intro hne
    have hrest : chordInputsNonempty rest := fun x hx => hne x (by simp [hx])
    cases m with
    | dualRole i h t => simpa [chordContrib] using ih hrest
    | remap inp out =>
      have hm : inp.Nonempty := hne (.remap inp out) (by simp)
      have hne0 : inp ≠ ∅ := Finset.nonempty_iff_ne_empty.mp hm
      simpa [chordContrib, Finset.subset_empty, hne0] using ih hrest

theorem desired_phys_empty (ms : List Mapping) (hne : chordInputsNonempty ms)
    (swallowed : Finset Nat) : desired ms ∅ ∅ swallowed = ∅ := by
  rw [desired, holdContrib_empty, chordContrib_empty ms hne, Finset.filter_empty]
  simp

theorem stepEngine_state_inv (ms : List Mapping) (st : EngineState) (stim : Stimulus)
    (h1 : st.held ⊆ st.phys) (h2 : ∀ p, st.pending = some p → p ∈ st.phys)
    (h3 : st.emitted = desired ms st.phys st.held st.swallowed) :
    (stepEngine ms st stim).1.held ⊆ (stepEngine ms st stim).1.phys ∧
    (∀ p, (stepEngine ms st stim).1.pending = some p →
      p ∈ (stepEngine ms st stim).1.phys) ∧
    (stepEngine ms st stim).1.emitted =
      desired ms (stepEngine ms st stim).1.phys (stepEngine ms st stim).1.held
        (stepEngine ms st stim).1.swallowed := by
  cases stim with
  | press k =>
    refine ⟨?_, ?_, rfl⟩
    · show (match st.pending with
        | some p => insert p st.held
        | none => st.held) ⊆ insert k st.phys
      cases hp : st.pending with
      | none => exact h1.trans (Finset.subset_insert k st.phys)
      | some p =>
        exact Finset.insert_subset_iff.mpr
          ⟨Finset.mem_insert_of_mem (h2 p hp), h1.trans (Finset.subset_insert _ _)⟩
    · intro q hq
      show q ∈ insert k st.phys
      have hq' : (if isDualInput ms k then some k else none) = some q := hq
      by_cases hd : isDualInput ms k
      · rw [if_pos hd] at hq'
        cases hq'
        exact Finset.mem_insert_self k st.phys
      · rw [if_neg hd] at hq'
        cases hq'
  | release k =>
    by_cases hpk : st.pending = some k
    · rw [show stepEngine ms st (.release k) =
          (⟨st.phys.erase k,
            desired ms (st.phys.erase k) (st.held.erase k)
              (newSwallowed ms (st.phys.erase k) st.swallowed),
            none, st.held.erase k,
            newSwallowed ms (st.phys.erase k) st.swallowed⟩,
           tapEvents (tapOf ms k) ++
             closeBatch (diffEvents st.emitted
               (desired ms (st.phys.erase k) (st.held.erase k)
                 (newSwallowed ms (st.phys.erase k) st.swallowed)))) by
        simp [stepEngine, hpk]]
      refine ⟨?_, ?_, rfl⟩
      · intro x hx
        obtain ⟨hxk, hxh⟩ := Finset.mem_erase.mp hx
        exact Finset.mem_erase.mpr ⟨hxk, h1 hxh⟩
      · intro q hq
        cases hq
    · rw [show stepEngine ms st (.release k) =
          (⟨st.phys.erase k,
            desired ms (st.phys.erase k) (st.held.erase k)
              (newSwallowed ms (st.phys.erase k) st.swallowed),
            st.pending, st.held.erase k,
            newSwallowed ms (st.phys.erase k) st.swallowed⟩,
           closeBatch (diffEvents st.emitted
             (desired ms (st.phys.erase k) (st.held.erase k)
               (newSwallowed ms (st.phys.erase k) st.swallowed)))) by
        simp [stepEngine, hpk]]
      refine ⟨?_, ?_, rfl⟩
      · intro x hx
        obtain ⟨hxk, hxh⟩ := Finset.mem_erase.mp hx
        exact Finset.mem_erase.mpr ⟨hxk, h1 hxh⟩
      · intro q hq
        have hqk : q ≠ k := by
          rintro rfl
          exact hpk hq
        exact Finset.mem_erase.mpr ⟨hqk, h2 q hq⟩
  | rep k =>
    exact ⟨h1, h2, h3⟩
  | timer =>
    cases hp : st.pending with
    | none =>
      rw [show stepEngine ms st .timer = (st, []) by simp [stepEngine, hp]]
      exact ⟨h1, h2, h3⟩
    | some p =>
      rw [show stepEngine ms st .timer =
          (⟨st.phys, desired ms st.phys (insert p st.held) st.swallowed,
            none, insert p st.held, st.swallowed⟩,
           closeBatch (diffEvents st.emitted
             (desired ms st.phys (insert p st.held) st.swallowed))) by
        simp [stepEngine, hp]]
      refine ⟨?_, ?_, rfl⟩
      · exact Finset.insert_subset_iff.mpr ⟨h2 p hp, h1⟩
      · intro q hq
        cases hq

theorem stepEngine_output (ms : List Mapping) (st : EngineState) (stim : Stimulus) :
    openKeys st.emitted.val (stepEngine ms st stim).2 =
      (stepEngine ms st stim).1.emitted.val ∧
    releasesOk st.emitted.val (stepEngine ms st stim).2 = true := by
  cases stim with
  | press k => exact diff_batch_spec st.emitted _
  | release k =>
    by_cases hpk : st.pending = some k
    · rw [show (stepEngine ms st (.release k)).2 =
          tapEvents (tapOf ms k) ++
            closeBatch (diffEvents st.emitted
              (desired ms (st.phys.erase k) (st.held.erase k)
                (newSwallowed ms (st.phys.erase k) st.swallowed))) by
        simp [stepEngine, hpk]]
      rw [show (stepEngine ms st (.release k)).1.emitted =
          desired ms (st.phys.erase k) (st.held.erase k)
            (newSwallowed ms (st.phys.erase k) st.swallowed) by
        simp [stepEngine, hpk]]
      exact tap_batch_spec _ _ _
    · rw [show (stepEngine ms st (.release k)).2 =
          closeBatch (diffEvents st.emitted
            (desired ms (st.phys.erase k) (st.held.erase k)
              (newSwallowed ms (st.phys.erase k) st.swallowed))) by
        simp [stepEngine, hpk]]
      rw [show (stepEngine ms st (.release k)).1.emitted =
          desired ms (st.phys.erase k) (st.held.erase k)
            (newSwallowed ms (st.phys.erase k) st.swallowed) by
        simp [stepEngine, hpk]]
      exact diff_batch_spec _ _
  | rep k =>
    by_cases hpa : participates ms k
    · rw [show stepEngine ms st (.rep k) = (st, []) by simp [stepEngine, hpa]]
      exact ⟨rfl, rfl⟩
    · rw [show stepEngine ms st (.rep k) = (st, closeBatch [.rep k]) by
        simp [stepEngine, hpa]]
      exact ⟨rfl, rfl⟩
  | timer =>
    cases hp : st.pending with
    | none =>
      rw [show stepEngine ms st .timer = (st, []) by simp [stepEngine, hp]]
      exact ⟨rfl, rfl⟩
    | some p =>
      rw [show (stepEngine ms st .timer).2 =
          closeBatch (diffEvents st.emitted
            (desired ms st.phys (insert p st.held) st.swallowed)) by
        simp [stepEngine, hp]]
      rw [show (stepEngine ms st .timer).1.emitted =
          desired ms st.phys (insert p st.held) st.swallowed by
        simp [stepEngine, hp]]
      exact diff_batch_spec _ _

theorem runEngine_spec (ms : List Mapping) :
    ∀ (stims : List Stimulus) (st : EngineState),
      st.held ⊆ st.phys → (∀ p, st.pending = some p → p ∈ st.phys) →
      st.emitted = desired ms st.phys st.held st.swallowed →
      ((runEngine ms st stims).1.held ⊆ (runEngine ms st stims).1.phys ∧
       (runEngine ms st stims).1.emitted =
         desired ms (runEngine ms st stims).1.phys (runEngine ms st stims).1.held
           (runEngine ms st stims).1.swallowed) ∧
      openKeys st.emitted.val (runEngine ms st stims).2 =
        (runEngine ms st stims).1.emitted.val ∧
      releasesOk st.emitted.val (runEngine ms st stims).2 = true := by
  intro stims
  induction stims with
  | nil => intro st h1 _ h3; exact ⟨⟨h1, h3⟩, rfl, rfl⟩
  | cons stim rest ih =>
    intro st h1 h2 h3
    obtain ⟨s1, s2, s3⟩ := stepEngine_state_inv ms st stim h1 h2 h3
    obtain ⟨o1, o2⟩ := stepEngine_output ms st stim
    obtain ⟨⟨r1, r3⟩, ro1, ro2⟩ := ih (stepEngine ms st stim).1 s1 s2 s3
    refine ⟨⟨r1, r3⟩, ?_, ?_⟩
    · rw [show (runEngine ms st (stim :: rest)).2 =
          (stepEngine ms st stim).2 ++ (runEngine ms (stepEngine ms st stim).1 rest).2
          from rfl]
      rw [openKeys_append, o1, ro1]
      rfl
    · rw [show (runEngine ms st (stim :: rest)).2 =
          (stepEngine ms st stim).2 ++ (runEngine ms (stepEngine ms st stim).1 rest).2
          from rfl]
      rw [releasesOk_append, o2, o1, ro2]
      rfl

/-- C4: for any finite stimulus sequence processed by the (spec-modelled)
event engine, if at the end all physical keys are released, then
`emitted_down` is empty and the output stream's presses and releases match up
perfectly: no press is left open (`openKeys 0 out = 0`) and every release
closes a key that a prior press left open (`releasesOk`), so every output
press has a matching later release.  Chord rules are assumed to have
nonempty input sets. -/
theorem engine_balance (ms : List Mapping) (stims : List Stimulus)
    (hne : chordInputsNonempty ms)
    (hrel : (runEngine ms initialEngineState stims).1.phys = ∅) :
    (runEngine ms initialEngineState stims).1.emitted = ∅ ∧
    openKeys 0 (runEngine ms initialEngineState stims).2 = 0 ∧
    releasesOk 0 (runEngine ms initialEngineState stims).2 = true := by
  have h0 : initialEngineState.emitted =
      desired ms initialEngineState.phys initialEngineState.held
        initialEngineState.swallowed :=
    (desired_phys_empty ms hne ∅).symm
  obtain ⟨⟨r1, r3⟩, ro1, ro2⟩ :=
    runEngine_spec ms stims initialEngineState (Finset.empty_subset _)
      (fun p hp => Option.noConfusion hp) h0
  have hheld : (runEngine ms initialEngineState stims).1.held = ∅ := by
    rw [hrel] at r1
    exact Finset.subset_empty.mp r1
  have hemit : (runEngine ms initialEngineState stims).1.emitted = ∅ := by
    rw [r3, hrel, hheld]
    exact desired_phys_empty ms hne _
  refine ⟨hemit, ?_, ro2⟩
  rw [hemit] at ro1
  exact ro1

/-- Witness for the balance theorem: the spec's CAPSLOCK dual-role rule and
LEFTALT+F4 chord, driven through a tap, a hold resolved by a second key, and
a completed chord, with every key released at the end. -/
theorem engine_balance_witness :
    chordInputsNonempty witnessMappings ∧
    (runEngine witnessMappings initialEngineState witnessStimuli).1.phys = ∅ ∧
    ((runEngine witnessMappings initialEngineState witnessStimuli).1.emitted = ∅ ∧
     openKeys 0 (runEngine witnessMappings initialEngineState witnessStimuli).2 = 0 ∧
     releasesOk 0 (runEngine witnessMappings initialEngineState witnessStimuli).2 = true) :=
  ⟨by decide, by decide,
    engine_balance witnessMappings witnessStimuli (by decide) (by decide)⟩

end Evremap
